import Mathlib

/-!
Verification of the revgrep core (src/revgrep.go) against its specification.

The Go source is shallowly embedded: strings are lists of characters (the
diff and analysis-line formats handled by the program are byte-oriented
ASCII text, so one character models one byte), Go `int`/`uint64` arithmetic
is modelled on `Int`/`Nat` with two's-complement wrapping made explicit at
the conversion points, a Go `nil` slice is `Option.none` (distinct from an
empty slice `some []`, a distinction the source relies on), and a Go map is
an association list with insert-or-replace semantics. A function that can
panic returns `Option`, with `none` produced exactly at the panic sites.

External collaborators (declared out of scope by the specification) are
parameters of the embedding: the regexp engine is represented by each input
line carrying its submatch outcome, `filepath.Rel` by a relativization
function, and the git subprocesses by a `GitEnv` record of their outcomes.
`GitPatch` additionally returns the trace of subprocess invocations so that
ordering claims about subprocess calls can be stated.
-/

namespace Revgrep

/-- Characters of a Go string (ASCII byte per character). -/
abbrev GoStr := List Char

/-- Coerces a Lean string literal to the character-list model. -/
def gs (s : String) : GoStr := s.data

/-- Go strings.HasPrefix. -/
def goHasPre (s pre : GoStr) : Bool := pre.isPrefixOf s

/-- Go strings.Split / bytes.Split with a one-character separator: all the
substrings between consecutive separators, never the empty list. -/
def goSplit (sep : Char) : GoStr → List GoStr
  | [] => [[]]
  | c :: cs =>
    if c = sep then [] :: goSplit sep cs
    else
      match goSplit sep cs with
      | [] => [[c]]
      | r :: rs => (c :: r) :: rs

/-- Go bufio.ScanLines drops one trailing carriage return from a token. -/
def dropCR (l : GoStr) : GoStr := if l.getLast? = some '\r' then l.dropLast else l

/-- Lines produced by a Go bufio.Scanner over a string: newline-separated
tokens, without a final empty token for a trailing newline. -/
def goScanLines (s : GoStr) : List GoStr :=
  (if s.isEmpty then []
   else if s.getLast? = some '\n' then (goSplit '\n' s).dropLast
   else goSplit '\n' s).map dropCR

/-- Go strconv.ParseUint(s, 10, 64): the parsed value and whether err == nil.
On a syntax error (empty or a non-digit) the returned value is 0; on a range
error (at least 2^64) it is 2^64 - 1, matching Go's returned values. -/
def goParseUint64 (s : GoStr) : Nat × Bool :=
  if s ≠ [] ∧ s.all Char.isDigit then
    let v := s.foldl (fun a c => a * 10 + (c.toNat - 48)) 0
    if v < 2 ^ 64 then (v, true) else (2 ^ 64 - 1, false)
  else (0, false)

/-- Go conversion int(x) of a uint64 value on a 64-bit platform:
two's-complement wrap into the signed range. -/
def int64OfUInt64 (n : Nat) : Int :=
  if n < 2 ^ 63 then (n : Int) else (n : Int) - 2 ^ 64

/-- The pos struct of src/revgrep.go: a changed line's absolute line number
in the new file and its offset from the file's first hunk header. -/
structure Pos where
  lineNo : Int
  hunkPos : Int
deriving DecidableEq

/-- Value of the changed-line map for one file: none models a Go nil slice
(the wholly-new-file sentinel), some a real (possibly empty) slice. -/
abbrev FileChanges := Option (List Pos)

/-- The map returned by linesChanged, as an association list. -/
abbrev ChangeMap := List (GoStr × FileChanges)

/-- Go map assignment m[k] = v: replace the binding if present, else add it. -/
def mapSet (m : ChangeMap) (k : GoStr) (v : FileChanges) : ChangeMap :=
  if m.any (fun p => p.1 = k) then m.map (fun p => if p.1 = k then (k, v) else p)
  else m ++ [(k, v)]

/-- Go map lookup with the ok flag: none when the key is absent. -/
def mapGet (m : ChangeMap) (k : GoStr) : Option FileChanges :=
  (m.find? (fun p => p.1 = k)).map Prod.snd

/-- The state struct of Checker.linesChanged. -/
structure LCState where
  file : GoStr
  lineNo : Int
  hunkPos : Int
  changes : Option (List Pos)
deriving DecidableEq

/-- Extraction of the new-file start field from a hunk header line in
Checker.linesChanged: chdr := Split(line, " "); ahdr := Split(chdr[2], ",");
the field is ahdr[0][1:]. none models an index or slice panic. -/
def hunkStartField (line : GoStr) : Option GoStr :=
  match (goSplit ' ' line).get? 2 with
  | none => none
  | some f2 =>
    let a0 := (goSplit ',' f2).headD []
    if 1 ≤ a0.length then some (a0.drop 1) else none

/-- One iteration of the scanner loop in Checker.linesChanged, acting on the
running state and the accumulating map. none models a panic: the slice
line[6:] on a file-header line shorter than six characters, an out-of-range
index in the hunk-header split, or panic(err) on an unparseable start. -/
def lcStep (sm : LCState × ChangeMap) (line : GoStr) : Option (LCState × ChangeMap) :=
  let s : LCState := { sm.1 with lineNo := sm.1.lineNo + 1, hunkPos := sm.1.hunkPos + 1 }
  let m := sm.2
  if goHasPre line (gs "+++ ") && line.length > 4 then
    let m' := if s.changes ≠ none then mapSet m s.file s.changes else m
    if 6 ≤ line.length then
      some ({ file := line.drop 6, lineNo := 0, hunkPos := -1, changes := some [] }, m')
    else none
  else if goHasPre line (gs "@@ ") then
    match hunkStartField line with
    | none => none
    | some ds =>
      match goParseUint64 ds with
      | (cstart, true) => some ({ s with lineNo := int64OfUInt64 cstart - 1 }, m)
      | (_, false) => none
  else if goHasPre line (gs "-") then
    some ({ s with lineNo := s.lineNo - 1 }, m)
  else if goHasPre line (gs "+") then
    some ({ s with changes := some (s.changes.getD [] ++ [⟨s.lineNo, s.hunkPos⟩]) }, m)
  else
    some (s, m)

/-- Initial state of Checker.linesChanged: zero state and the map pre-seeded
with a nil entry for every NewFiles name. -/
def lcInit (newFiles : List GoStr) : LCState × ChangeMap :=
  (⟨[], 0, 0, none⟩, newFiles.foldl (fun m f => mapSet m f none) [])

/-- Checker.linesChanged over an already-scanned list of patch lines;
none models the function panicking, a nil patch yields only the seeds. -/
def linesChangedLines (newFiles : List GoStr) (patch : Option (List GoStr)) :
    Option ChangeMap :=
  match patch with
  | none => some (lcInit newFiles).2
  | some lines =>
    (lines.foldlM lcStep (lcInit newFiles)).map fun sm => mapSet sm.2 sm.1.file sm.1.changes

/-- Checker.linesChanged on the raw patch text read by its scanner. -/
def linesChanged (newFiles : List GoStr) (patch : Option GoStr) : Option ChangeMap :=
  linesChangedLines newFiles (patch.map goScanLines)

/-- The Issue struct of src/revgrep.go. -/
structure Issue where
  file : GoStr
  lineNo : Int
  colNo : Int
  hunkPos : Int
  issue : GoStr
  message : GoStr
deriving DecidableEq

/-- Outcome of lineRE.FindSubmatch on one analysis-output line: the four
capture groups (file path, line number, optional column number, message).
The regexp engine is an external collaborator, so each input line carries
its submatch outcome. -/
structure Submatch where
  file : GoStr
  lineStr : GoStr
  colStr : GoStr
  msg : GoStr
deriving DecidableEq

/-- One line of the analysis-output stream together with its submatch
outcome (none when the line pattern did not match). -/
structure InputLine where
  text : GoStr
  parsed : Option Submatch
deriving DecidableEq

/-- The error values Checker.Check can return for the conditions modelled
here: a GitPatch failure or the absence of a version-control repository. -/
inductive CheckErr
  | gitRepo (msg : GoStr)
  | noVCS
deriving DecidableEq

/-- The return triple of GitPatch: raw patch text (none for a nil reader),
untracked file names, and the error. -/
structure GitResult where
  patch : Option GoStr
  newFiles : List GoStr
  err : Option GoStr
deriving DecidableEq

/-- What Checker.Check produces: the collected issues, the lines written to
the writer, in order, and the returned error. -/
structure CheckResult where
  issues : List Issue
  written : List GoStr
  err : Option CheckErr
deriving DecidableEq

/-- Path normalization in Checker.Check: filepath.Rel (an external
collaborator, supplied as relFn) replaces the path when it succeeds. -/
def normPath (relFn : GoStr → Option GoStr) (p : GoStr) : GoStr :=
  match relFn p with
  | some rel => rel
  | none => p

/-- One iteration of the scanner loop in Checker.Check, folding over the
accumulated (issues, written) pair. Mirrors the source: an unmatched line is
skipped; in write-all mode a matched line is written and no Issue is built;
otherwise the path is normalized, the line number parsed (skip on failure),
the optional column parsed (failure keeps Go's returned value), the map
consulted, and on a changed line or a nil (wholly new) entry an Issue is
appended and the line written. -/
def checkFold (writeAll : Bool) (relFn : GoStr → Option GoStr) (lc : ChangeMap)
    (acc : List Issue × List GoStr) (l : InputLine) : List Issue × List GoStr :=
  match l.parsed with
  | none => acc
  | some sm =>
    if writeAll then (acc.1, acc.2 ++ [l.text])
    else
      let path := normPath relFn sm.file
      match goParseUint64 sm.lineStr with
      | (_, false) => acc
      | (lno, true) =>
        let cno : Nat := if sm.colStr.length > 0 then (goParseUint64 sm.colStr).1 else 0
        match mapGet lc path with
        | none => acc
        | some fchanges =>
          let fp := (fchanges.getD []).foldl
            (fun (a : Pos × Bool) p =>
              if p.lineNo = int64OfUInt64 lno then (p, true) else a) (⟨0, 0⟩, false)
          if fp.2 ∨ fchanges = none then
            (acc.1 ++ [{ file := path, lineNo := fp.1.lineNo, colNo := int64OfUInt64 cno,
                         hunkPos := if fp.2 then fp.1.hunkPos else fp.1.lineNo,
                         issue := l.text, message := sm.msg }],
             acc.2 ++ [l.text])
          else acc

/-- The analysis-output lines that match the line pattern, in input order. -/
def matchedTexts (input : List InputLine) : List GoStr :=
  (input.filter (fun l => l.parsed.isSome)).map InputLine.text

/-- Checker.Check. suppliedPatch and suppliedNewFiles are the Patch and
NewFiles fields; git is the GitPatch outcome consulted when no patch was
supplied. Mirrors the source: a GitPatch error sets write-all mode and the
git-repo error, a nil patch then sets write-all mode and overwrites the
returned error with the no-repository error; linesChanged builds the map
(none propagates its panic); the scanner loop folds checkFold. The working
directory and the output stream are assumed healthy (their failures only
replace the returned error). -/
def check (suppliedPatch : Option GoStr) (suppliedNewFiles : List GoStr)
    (git : GitResult) (relFn : GoStr → Option GoStr) (input : List InputLine) :
    Option CheckResult :=
  match (match suppliedPatch with
         | some p => (some p, suppliedNewFiles, false, (none : Option CheckErr))
         | none =>
           match git.patch with
           | none => (none, git.newFiles, true, some CheckErr.noVCS)
           | some p => (some p, git.newFiles, git.err.isSome, git.err.map CheckErr.gitRepo)) with
  | (patch, newFiles, writeAll, retErr) =>
    match linesChanged newFiles patch with
    | none => none
    | some lc =>
      let folded := input.foldl (checkFold writeAll relFn lc) ([], [])
      some ⟨folded.1, folded.2, retErr⟩

/-- The subprocess invocations GitPatch can make, in order of occurrence. -/
inductive GitCall
  | status
  | lsFiles
  | diffRev (rfrom rto : GoStr)
  | diffUnstaged
  | diffHead
deriving DecidableEq

/-- Outcomes of the git subprocesses, an external collaborator: whether
git status succeeds, the output of git ls-files -o, and the diff commands
(error value is the captured diagnostic text). -/
structure GitEnv where
  repoExists : Bool
  lsFiles : Except GoStr GoStr
  diffRev : GoStr → GoStr → Except GoStr GoStr
  diffUnstaged : Except GoStr GoStr
  diffHead : Except GoStr GoStr

/-- The untracked-file list GitPatch builds from git ls-files -o output:
newline-separated entries, skipping empty ones and directories (trailing
slash). -/
def untrackedFiles (out : GoStr) : List GoStr :=
  (goSplit '\n' out).filter fun f => !(f.isEmpty || f.getLast? == some '/')

/-- GitPatch, over the git environment, together with the trace of
subprocess invocations it performs. Error strings carry the environment's
diagnostic text (Go's message formatting around them is not modelled). -/
def gitPatch (env : GitEnv) (revisionFrom revisionTo : GoStr) :
    GitResult × List GitCall :=
  if !env.repoExists then (⟨none, [], none⟩, [.status])
  else
    match env.lsFiles with
    | .error e => (⟨none, [], some e⟩, [.status, .lsFiles])
    | .ok out =>
      let newFiles := untrackedFiles out
      if revisionFrom ≠ [] then
        match env.diffRev revisionFrom revisionTo with
        | .error e =>
          (⟨none, [], some e⟩, [.status, .lsFiles, .diffRev revisionFrom revisionTo])
        | .ok patch =>
          if revisionTo = [] then
            (⟨some patch, newFiles, none⟩, [.status, .lsFiles, .diffRev revisionFrom revisionTo])
          else
            (⟨some patch, [], none⟩, [.status, .lsFiles, .diffRev revisionFrom revisionTo])
      else
        match env.diffUnstaged with
        | .error e => (⟨none, [], some e⟩, [.status, .lsFiles, .diffUnstaged])
        | .ok patch =>
          if patch.length > 0 ∨ newFiles ≠ [] then
            (⟨some patch, newFiles, none⟩, [.status, .lsFiles, .diffUnstaged])
          else
            match env.diffHead with
            | .error e => (⟨none, [], some e⟩, [.status, .lsFiles, .diffUnstaged, .diffHead])
            | .ok hp =>
              (⟨some (patch ++ hp), [], none⟩, [.status, .lsFiles, .diffUnstaged, .diffHead])

/-- Lines that can occur inside a hunk body: not a file-header line (the
"+++ " marker with content after it) and not a hunk-header line. -/
def hunkBodyLine (l : GoStr) : Bool :=
  !(goHasPre l (gs "+++ ") && l.length > 4) && !(goHasPre l (gs "@@ "))

/-- Case analysis of one linesChanged step on a hunk-body line: a deletion
keeps the line counter (the loop increment is undone), an addition records
the incremented counters, any other line just advances both counters. -/
lemma lcStep_body (s : LCState) (m : ChangeMap) (l : GoStr)
    (h : hunkBodyLine l = true) :
    lcStep (s, m) l = some (⟨s.file, s.lineNo, s.hunkPos + 1, s.changes⟩, m) ∨
    lcStep (s, m) l =
      some (⟨s.file, s.lineNo + 1, s.hunkPos + 1,
             some (s.changes.getD [] ++ [⟨s.lineNo + 1, s.hunkPos + 1⟩])⟩, m) ∨
    lcStep (s, m) l = some (⟨s.file, s.lineNo + 1, s.hunkPos + 1, s.changes⟩, m) := by
  unfold hunkBodyLine at h
  rw [Bool.and_eq_true, Bool.not_eq_true', Bool.not_eq_true'] at h
  obtain ⟨h1, h2⟩ := h
  unfold lcStep
  simp only [h1, h2, Bool.false_eq_true, if_false]
  by_cases h3 : goHasPre l (gs "-")
  · left
    simp [h3]
  · by_cases h4 : goHasPre l (gs "+")
    · right; left
      simp [h3, h4]
    · right; right
      simp [h3, h4]

/-- Invariant of the linesChanged loop over hunk-body lines: the map is
untouched, the line counter never drops below its starting value, and the
newly recorded positions lie strictly between the starting counter and the
final counter, in strictly increasing order. -/
lemma lc_body_inv (body : List GoStr) :
    ∀ (s : LCState) (m : ChangeMap) (s₁ : LCState) (m₁ : ChangeMap),
      (∀ l ∈ body, hunkBodyLine l = true) →
      body.foldlM lcStep (s, m) = some (s₁, m₁) →
      m₁ = m ∧ s.lineNo ≤ s₁.lineNo ∧
      ∃ new, s₁.changes.getD [] = s.changes.getD [] ++ new ∧
        (∀ p ∈ new, s.lineNo < p.lineNo ∧ p.lineNo ≤ s₁.lineNo) ∧
        List.Chain' (fun p q : Pos => p.lineNo < q.lineNo) new := by
  induction body with
  | nil =>
    intro s m s₁ m₁ _ hrun
    simp only [List.foldlM_nil, pure, Option.some.injEq, Prod.mk.injEq] at hrun
    obtain ⟨hs, hm⟩ := hrun
    subst hs; subst hm
    exact ⟨rfl, le_refl _, [], by simp, by simp, List.chain'_nil⟩
  | cons l ls ih =>
    intro s m s₁ m₁ hb hrun
    rw [List.foldlM_cons] at hrun
    have hbl := hb l (List.mem_cons_self l ls)
    have hbtail : ∀ x ∈ ls, hunkBodyLine x = true := fun x hx => hb x (List.mem_cons_of_mem l hx)
    rcases lcStep_body s m l hbl with h | h | h <;> rw [h] at hrun <;>
      simp only [Option.bind_eq_bind', Option.some_bind] at hrun
    · -- deletion: lineNo and changes unchanged
      obtain ⟨hm, hle, new, hchg, hbound, hchain⟩ := ih _ _ _ _ hbtail hrun
      exact ⟨hm, hle, new, hchg, hbound, hchain⟩
    · -- addition: a new position is recorded
      obtain ⟨hm, hle, new, hchg, hbound, hchain⟩ := ih _ _ _ _ hbtail hrun
      refine ⟨hm, le_trans (le_of_lt (lt_add_one _)) hle, ⟨s.lineNo + 1, s.hunkPos + 1⟩ :: new,
        ?_, ?_, ?_⟩
      · rw [hchg]; simp
      · intro p hp
        rcases List.mem_cons.mp hp with hp | hp
        · subst hp; exact ⟨lt_add_one _, hle⟩
        · exact ⟨lt_trans (lt_add_one _) (hbound p hp).1, (hbound p hp).2⟩
      · refine List.chain'_cons'.mpr ⟨?_, hchain⟩
        intro q hq
        exact (hbound q (List.mem_of_mem_head? hq)).1
    · -- context: lineNo advances, nothing recorded
      obtain ⟨hm, hle, new, hchg, hbound, hchain⟩ := ih _ _ _ _ hbtail hrun
      refine ⟨hm, le_trans (le_of_lt (lt_add_one _)) hle, new, hchg, ?_, hchain⟩
      intro p hp
      exact ⟨lt_trans (lt_add_one _) (hbound p hp).1, (hbound p hp).2⟩

/-- A line with no "+" at the start has no "+++ " at the start either. -/
lemma noplus_no_ppp {l : GoStr} (h : goHasPre l (gs "+") = false) :
    goHasPre l (gs "+++ ") = false := by
  cases l with
  | nil => rfl
  | cons c cs =>
    have e1 : goHasPre (c :: cs) (gs "+") = ('+' == c) := by
      show List.isPrefixOf ['+'] (c :: cs) = ('+' == c)
      simp [List.isPrefixOf]
    have e2 : goHasPre (c :: cs) (gs "+++ ") =
        (('+' == c) && List.isPrefixOf ['+', '+', ' '] cs) := by
      show List.isPrefixOf ['+', '+', '+', ' '] (c :: cs) = _
      simp [List.isPrefixOf]
    rw [e1] at h
    rw [e2, h, Bool.false_and]

/-- A line starting with "@@ " does not start with "+++ ". -/
lemma atat_no_ppp {l : GoStr} (h : goHasPre l (gs "@@ ") = true) :
    goHasPre l (gs "+++ ") = false := by
  cases l with
  | nil => simp [goHasPre, gs, List.isPrefixOf] at h
  | cons c cs =>
    have e1 : goHasPre (c :: cs) (gs "@@ ") =
        (('@' == c) && List.isPrefixOf ['@', ' '] cs) := by
      show List.isPrefixOf ['@', '@', ' '] (c :: cs) = _
      simp [List.isPrefixOf]
    rw [e1, Bool.and_eq_true] at h
    have hc : c = '@' := (beq_iff_eq.mp h.1).symm
    subst hc
    rfl

/-- Reduction of one linesChanged step on a hunk-header line to the start
field extraction and its parse. -/
lemma lcStep_hunkheader (s : LCState) (m : ChangeMap) (l : GoStr)
    (h1 : (goHasPre l (gs "+++ ") && decide (l.length > 4)) = false)
    (h2 : goHasPre l (gs "@@ ") = true) :
    lcStep (s, m) l =
      match hunkStartField l with
      | none => none
      | some ds =>
        match goParseUint64 ds with
        | (cstart, true) =>
          some ({ file := s.file, lineNo := int64OfUInt64 cstart - 1,
                  hunkPos := s.hunkPos + 1, changes := s.changes }, m)
        | (_, false) => none := by
  unfold lcStep
  simp only [h1, h2, Bool.false_eq_true, if_false, if_true]

/-- One linesChanged step on a line that does not start with "+" either
panics or leaves the current file, the recorded changes and the map alone. -/
lemma lcStep_noplus (s : LCState) (m : ChangeMap) (l : GoStr)
    (h : goHasPre l (gs "+") = false) :
    lcStep (s, m) l = none ∨
    ∃ ln hp, lcStep (s, m) l = some (⟨s.file, ln, hp, s.changes⟩, m) := by
  have h1 : goHasPre l (gs "+++ ") = false := noplus_no_ppp h
  have h1' : (goHasPre l (gs "+++ ") && decide (l.length > 4)) = false := by
    rw [h1, Bool.false_and]
  by_cases h2 : goHasPre l (gs "@@ ")
  · have hred := lcStep_hunkheader s m l h1' h2
    rcases hsf : hunkStartField l with _ | ds
    · left; rw [hred, hsf]
    · cases hpu : goParseUint64 ds with
      | mk c b =>
        cases b with
        | false => left; rw [hred, hsf]; simp [hpu]
        | true =>
          right
          exact ⟨int64OfUInt64 c - 1, s.hunkPos + 1, by rw [hred, hsf]; simp [hpu]⟩
  · unfold lcStep
    simp only [h1', h2, Bool.false_eq_true, if_false]
    by_cases h3 : goHasPre l (gs "-")
    · simp only [h3, if_true]
      exact Or.inr ⟨s.lineNo + 1 - 1, s.hunkPos + 1, rfl⟩
    · simp only [h3, h, Bool.false_eq_true, if_false]
      exact Or.inr ⟨s.lineNo + 1, s.hunkPos + 1, rfl⟩

/-- Folding linesChanged over lines with no leading "+" preserves the
current file, the recorded changes and the map. -/
lemma lc_noplus_fold (body : List GoStr) :
    ∀ (s : LCState) (m : ChangeMap) (s₁ : LCState) (m₁ : ChangeMap),
      (∀ l ∈ body, goHasPre l (gs "+") = false) →
      body.foldlM lcStep (s, m) = some (s₁, m₁) →
      s₁.file = s.file ∧ s₁.changes = s.changes ∧ m₁ = m := by
  induction body with
  | nil =>
    intro s m s₁ m₁ _ hrun
    simp only [List.foldlM_nil, pure, Option.some.injEq, Prod.mk.injEq] at hrun
    obtain ⟨hs, hm⟩ := hrun
    subst hs; subst hm
    exact ⟨rfl, rfl, rfl⟩
  | cons l ls ih =>
    intro s m s₁ m₁ hb hrun
    rw [List.foldlM_cons] at hrun
    rcases lcStep_noplus s m l (hb l (List.mem_cons_self l ls)) with h | ⟨ln, hp, h⟩ <;>
      rw [h] at hrun
    · simp at hrun
    · simp only [Option.bind_eq_bind', Option.some_bind] at hrun
      obtain ⟨hf, hch, hm⟩ :=
        ih _ _ _ _ (fun x hx => hb x (List.mem_cons_of_mem l hx)) hrun
      exact ⟨hf, hch, hm⟩

/-- One linesChanged step on the file-header line for file f (with the
conventional b/ tree marker) resets the state to f with an empty non-nil
changes slice and hunk position -1. -/
lemma lcStep_fileheader (s : LCState) (m : ChangeMap) (f : GoStr)
    (hch : s.changes = none) :
    lcStep (s, m) (gs "+++ b/" ++ f) = some (⟨f, 0, -1, some []⟩, m) := by
  have hlen : (gs "+++ b/" ++ f).length = 6 + f.length := by
    rw [List.length_append]; rfl
  have hg : (goHasPre (gs "+++ b/" ++ f) (gs "+++ ") &&
      decide ((gs "+++ b/" ++ f).length > 4)) = true := by
    have h1 : goHasPre (gs "+++ b/" ++ f) (gs "+++ ") = true := by
      show List.isPrefixOf ['+', '+', '+', ' '] _ = true
      simp [List.isPrefixOf, gs]
    rw [h1, Bool.true_and, decide_eq_true_eq, hlen]
    omega
  have h6 : 6 ≤ (gs "+++ b/" ++ f).length := by rw [hlen]; omega
  have hdrop : (gs "+++ b/" ++ f).drop 6 = f := rfl
  unfold lcStep
  rw [if_pos hg]
  simp only [hch]
  rw [if_neg (show ¬((none : Option (List Pos)) ≠ none) from fun hc => hc rfl),
    if_pos h6, hdrop]

/-- One Check scan step against a map holding only an empty non-nil entry
for f skips any input line whose normalized path is f. -/
lemma checkFold_skip (relFn : GoStr → Option GoStr) (f : GoStr) (l : InputLine)
    (hl : ∀ sm, l.parsed = some sm → normPath relFn sm.file = f)
    (acc : List Issue × List GoStr) :
    checkFold false relFn [(f, some [])] acc l = acc := by
  cases hp : l.parsed with
  | none => simp [checkFold, hp]
  | some sm =>
    have hpath := hl sm hp
    have hmg : mapGet [(f, some [])] f = some (some []) := by
      simp [mapGet, List.find?]
    cases hlno : goParseUint64 sm.lineStr with
    | mk v b =>
      cases b with
      | false => simp [checkFold, hp, hlno]
      | true => simp [checkFold, hp, hlno, hpath, hmg]

/-- The Check scan against a map holding only an empty non-nil entry for f
leaves the accumulator untouched when every matched path normalizes to f. -/
lemma checkFold_skip_fold (relFn : GoStr → Option GoStr) (f : GoStr)
    (input : List InputLine)
    (hin : ∀ l ∈ input, ∀ sm, l.parsed = some sm → normPath relFn sm.file = f) :
    ∀ acc, input.foldl (checkFold false relFn [(f, some [])]) acc = acc := by
  induction input with
  | nil => intro acc; rfl
  | cons l ls ih =>
    intro acc
    rw [List.foldl_cons, checkFold_skip relFn f l (hin l (List.mem_cons_self l ls)) acc]
    exact ih (fun x hx => hin x (List.mem_cons_of_mem l hx)) acc

/-- The Check scan in write-all mode appends exactly the texts of the
pattern-matching lines to the written output and never touches the issues. -/
lemma checkFold_writeAll_eq (relFn : GoStr → Option GoStr) (lc : ChangeMap)
    (input : List InputLine) :
    ∀ acc : List Issue × List GoStr,
      input.foldl (checkFold true relFn lc) acc = (acc.1, acc.2 ++ matchedTexts input) := by
  induction input with
  | nil => intro acc; simp [matchedTexts]
  | cons l ls ih =>
    intro acc
    rw [List.foldl_cons]
    cases hp : l.parsed with
    | none =>
      rw [show checkFold true relFn lc acc l = acc by simp [checkFold, hp]]
      rw [ih]
      simp [matchedTexts, List.filter_cons, hp]
    | some sm =>
      rw [show checkFold true relFn lc acc l = (acc.1, acc.2 ++ [l.text]) by
        simp [checkFold, hp]]
      rw [ih]
      simp [matchedTexts, List.filter_cons, hp]

/-- C1: the claim states that for an analysis line whose normalized path is
present in the changed-file map as wholly new (the nil-slice sentinel),
Check matches the line unconditionally with HunkPos and LineNo equal to the
parsed line number. The match is indeed unconditional, but Check builds the
Issue from the zero-valued pos, so both LineNo and HunkPos are 0 instead of
the parsed line number 3 — contradicting the HunkPos doc comment in the
source ("for new files this will be the line number"). This theorem
evaluates Check at the failing input: patch an empty supplied reader,
NewFiles = [main.go], input line "main.go:3: foo". -/
theorem new_file_issue_fields :
    check (some (gs "")) [gs "main.go"] ⟨none, [], none⟩ (fun _ => none)
        [⟨gs "main.go:3: foo", some ⟨gs "main.go", gs "3", gs "", gs "foo"⟩⟩] =
      some ⟨[⟨gs "main.go", 0, 0, 0, gs "main.go:3: foo", gs "foo"⟩],
            [gs "main.go:3: foo"], none⟩ := by
  decide

/-- C2 counterexample: with a repository present, no uncommitted changes and
no untracked files, calling the resolver with revisionFrom empty and
revisionTo = "HEAD~" reports no error at all (err = none) and performs
subprocess calls (the trace is non-empty), contradicting the claim that a
configuration fault is reported before any subprocess call. -/
theorem revision_to_without_from_unchecked_cex :
    ((gitPatch ⟨true, .ok (gs ""), fun _ _ => .ok (gs ""), .ok (gs ""), .ok (gs "dh")⟩
        (gs "") (gs "HEAD~")).1.err = none) ∧
    ((gitPatch ⟨true, .ok (gs ""), fun _ _ => .ok (gs ""), .ok (gs ""), .ok (gs "dh")⟩
        (gs "") (gs "HEAD~")).2 ≠ []) := by
  decide

/-- C2 amended: GitPatch performs no validation of the documented caller
contract; when revisionFrom is empty, revisionTo is read nowhere, and the
resolver behaves exactly as if revisionTo were empty too (the auto-detection
flow), for every git environment. -/
theorem revision_to_ignored_when_from_empty (env : GitEnv) (rt : GoStr) :
    gitPatch env (gs "") rt = gitPatch env (gs "") (gs "") := by
  unfold gitPatch
  have hnil : gs "" = [] := rfl
  cases env.repoExists <;> simp [hnil]

/-- C3: when git status fails (no version-control repository), GitPatch
returns no patch, no new-files list and no error; Check without a supplied
patch then enters write-all mode, writes exactly the pattern-matching input
lines verbatim in order, collects no issues, and returns the non-nil
no-repository error. -/
theorem no_repo_write_all (env : GitEnv) (h : env.repoExists = false)
    (rf rt : GoStr) (relFn : GoStr → Option GoStr) (input : List InputLine) :
    (gitPatch env rf rt).1 = ⟨none, [], none⟩ ∧
    check none [] (gitPatch env rf rt).1 relFn input =
      some ⟨[], matchedTexts input, some CheckErr.noVCS⟩ := by
  have h1 : (gitPatch env rf rt).1 = ⟨none, [], none⟩ := by
    unfold gitPatch
    rw [h]
    rfl
  refine ⟨h1, ?_⟩
  rw [h1]
  have h2 : check none [] ⟨none, [], none⟩ relFn input =
      some ⟨(input.foldl (checkFold true relFn []) ([], [])).1,
            (input.foldl (checkFold true relFn []) ([], [])).2,
            some CheckErr.noVCS⟩ := rfl
  rw [h2, checkFold_writeAll_eq]
  rfl

/-- C3 witness: the theorem applied to a concrete absent-repository
environment and a two-line input (one matching, one not). -/
theorem no_repo_write_all_witness :
    (gitPatch ⟨false, .ok [], fun _ _ => .ok [], .ok [], .ok []⟩ [] []).1 =
      ⟨none, [], none⟩ ∧
    check none [] (gitPatch ⟨false, .ok [], fun _ _ => .ok [], .ok [], .ok []⟩ [] []).1
        (fun _ => none)
        [⟨gs "a.go:1: m", some ⟨gs "a.go", gs "1", [], gs "m"⟩⟩, ⟨gs "junk", none⟩] =
      some ⟨[], matchedTexts [⟨gs "a.go:1: m", some ⟨gs "a.go", gs "1", [], gs "m"⟩⟩,
                              ⟨gs "junk", none⟩], some CheckErr.noVCS⟩ :=
  no_repo_write_all ⟨false, .ok [], fun _ _ => .ok [], .ok [], .ok []⟩ rfl [] []
    (fun _ => none)
    [⟨gs "a.go:1: m", some ⟨gs "a.go", gs "1", [], gs "m"⟩⟩, ⟨gs "junk", none⟩]

/-- C4: parsing the diff of one file with three hunks at new-start lines 1,
20 and 30 (the first two one-line replacements preceded by one context line,
the third without one) yields exactly the positions with line numbers 2, 21
and 30 paired with hunk positions 3, 7 and 11, in that order. -/
theorem three_hunk_positions :
    linesChanged []
        (some (gs "--- a/file.go\n+++ b/file.go\n@@ -1,1 +1,1 @@\n // comment\n-func Line() \x7b\x7d\n+func NewLine() \x7b\x7d\n@@ -20,1 +20,1 @@\n // comment\n-func Line() \x7b\x7d\n+func NewLine() \x7b\x7d\n // comment\n@@ -3,1 +30,1 @@\n-func Line() \x7b\x7d\n+func NewLine() \x7b\x7d\n // comment")) =
      some [(gs "file.go", some [⟨2, 3⟩, ⟨21, 7⟩, ⟨30, 11⟩])] := by
  decide

/-- C5 counterexample: the claim quantifies over every diff the parser
accepts, but the parser accepts this two-line diff whose hunk header
declares new-start 18446744073709551615 (numeric for ParseUint) and records
the addition with lineNumber -1, which is not strictly greater than the
declared new-start minus one — the int conversion wraps the counter to -2
before the addition line increments it. -/
theorem hunk_addition_below_start_cex :
    linesChangedLines [] (some [gs "@@ -1 +18446744073709551615 @@", gs "+x"]) =
      some [([], some [⟨-1, 2⟩])] ∧
    goParseUint64 (gs "18446744073709551615") = (18446744073709551615, true) ∧
    ¬((18446744073709551615 : Int) - 1 < -1) := by
  decide

/-- C5 amended: for any hunk body (lines that are neither file headers nor
hunk headers) processed by the parser loop from a state whose line counter
holds start - 1 — the counter a hunk header establishes, equal to the
declared new-start minus one whenever the declared start is below 2^63 (see
C8; for declared starts in [2^63, 2^64) the counter wraps, see the
counterexample) — the newly recorded additions all have lineNumber strictly
greater than start - 1 and appear in strictly increasing lineNumber order;
the strict-increase half needs no restriction. -/
theorem hunk_additions_monotone (start : Int) (sh : LCState) (m : ChangeMap)
    (body : List GoStr) (s₁ : LCState) (m₁ : ChangeMap)
    (hstart : sh.lineNo = start - 1)
    (hb : ∀ l ∈ body, hunkBodyLine l = true)
    (hrun : body.foldlM lcStep (sh, m) = some (s₁, m₁)) :
    ∃ new, s₁.changes.getD [] = sh.changes.getD [] ++ new ∧
      (∀ p ∈ new, start - 1 < p.lineNo) ∧
      List.Chain' (fun p q : Pos => p.lineNo < q.lineNo) new := by
  obtain ⟨-, -, new, h1, h2, h3⟩ := lc_body_inv body sh m s₁ m₁ hb hrun
  exact ⟨new, h1, fun p hp => hstart ▸ (h2 p hp).1, h3⟩

/-- C5 witness: the theorem applied to a concrete hunk body of two additions
around one context line, starting from new-start 1. -/
theorem hunk_additions_monotone_witness :
    ∃ new, (LCState.mk (gs "f") 3 5 (some [⟨1, 3⟩, ⟨3, 5⟩])).changes.getD [] =
        (LCState.mk (gs "f") 0 2 (some [])).changes.getD [] ++ new ∧
      (∀ p ∈ new, (1 : Int) - 1 < p.lineNo) ∧
      List.Chain' (fun p q : Pos => p.lineNo < q.lineNo) new :=
  hunk_additions_monotone 1 ⟨gs "f", 0, 2, some []⟩ [] [gs "+a", gs " c", gs "+b"]
    ⟨gs "f", 3, 5, some [⟨1, 3⟩, ⟨3, 5⟩]⟩ [] (by decide) (by decide) (by decide)

/-- C6: a diff for file f whose body after the file header contains no
addition lines (only deletions, context and hunk headers) produces, when it
parses, a map entry for f that is present with an empty non-nil list, and
the Check scan of any input whose matched paths normalize to f yields no
issues and writes nothing. -/
theorem deletion_only_entry (f : GoStr) (body : List GoStr)
    (hb : ∀ l ∈ body, goHasPre l (gs "+") = false)
    (m : ChangeMap)
    (hparse : linesChangedLines []
        (some ((gs "--- a/" ++ f) :: (gs "+++ b/" ++ f) :: body)) = some m)
    (relFn : GoStr → Option GoStr) (input : List InputLine)
    (hinput : ∀ l ∈ input, ∀ sm, l.parsed = some sm → normPath relFn sm.file = f) :
    mapGet m f = some (some []) ∧
    input.foldl (checkFold false relFn m) ([], []) = ([], []) := by
  have e1 : lcStep (lcInit []) (gs "--- a/" ++ f) = some (⟨[], 0, 1, none⟩, []) := rfl
  have e2 : lcStep (⟨[], 0, 1, none⟩, []) (gs "+++ b/" ++ f) =
      some (⟨f, 0, -1, some []⟩, []) := lcStep_fileheader _ _ f rfl
  unfold linesChangedLines at hparse
  simp only [] at hparse
  rw [List.foldlM_cons, e1] at hparse
  simp only [Option.bind_eq_bind', Option.some_bind] at hparse
  rw [List.foldlM_cons, e2] at hparse
  simp only [Option.bind_eq_bind', Option.some_bind] at hparse
  cases hrun : body.foldlM lcStep (⟨f, 0, -1, some []⟩, []) with
  | none => rw [hrun] at hparse; simp at hparse
  | some sm1 =>
    obtain ⟨s₁, m₁⟩ := sm1
    rw [hrun] at hparse
    obtain ⟨hf, hch, hm⟩ := lc_noplus_fold body _ _ _ _ hb hrun
    simp only [Option.map_some', Option.some.injEq] at hparse
    have hmv : m = [(f, some [])] := by
      rw [← hparse, hf, hch, hm]
      rfl
    subst hmv
    refine ⟨by simp [mapGet, List.find?], ?_⟩
    exact checkFold_skip_fold relFn f input hinput ([], [])

/-- C6 witness: the theorem applied to a concrete deletion-only diff for
file.go and one analysis line referencing it. -/
theorem deletion_only_entry_witness :
    mapGet [(gs "file.go", some [])] (gs "file.go") = some (some []) ∧
    List.foldl (checkFold false (fun _ => none) [(gs "file.go", some [])]) ([], [])
      [⟨gs "file.go:2: m", some ⟨gs "file.go", gs "2", [], gs "m"⟩⟩] = ([], []) :=
  deletion_only_entry (gs "file.go") [gs "@@ -1,2 +1,1 @@", gs "-gone", gs " ctx"]
    (by decide) [(gs "file.go", some [])] (by decide) (fun _ => none)
    [⟨gs "file.go:2: m", some ⟨gs "file.go", gs "2", [], gs "m"⟩⟩] (by decide)

/-- C7: with no revisions given and the git subprocesses healthy, if the
uncommitted diff is non-empty or untracked files exist, GitPatch returns
that diff together with the untracked-files list and no error; otherwise it
returns the diff against HEAD~ with no new files and no error. -/
theorem empty_revisions_precedence (env : GitEnv) (ls du dh : GoStr)
    (hrepo : env.repoExists = true) (hls : env.lsFiles = .ok ls)
    (hdu : env.diffUnstaged = .ok du) (hdh : env.diffHead = .ok dh) :
    ((du ≠ [] ∨ untrackedFiles ls ≠ []) →
        (gitPatch env [] []).1 = ⟨some du, untrackedFiles ls, none⟩) ∧
    (du = [] → untrackedFiles ls = [] →
        (gitPatch env [] []).1 = ⟨some dh, [], none⟩) := by
  constructor
  · intro h
    have hcond : du.length > 0 ∨ untrackedFiles ls ≠ [] := by
      rcases h with h | h
      · exact Or.inl (List.length_pos.mpr h)
      · exact Or.inr h
    simp [gitPatch, hrepo, hls, hdu, hcond]
  · intro h1 h2
    subst h1
    simp [gitPatch, hrepo, hls, hdu, hdh, h2]

/-- C7 witness: the theorem applied to a concrete environment with one
untracked file and a non-empty uncommitted diff. -/
theorem empty_revisions_precedence_witness :
    (gitPatch ⟨true, .ok (gs "n.go"), fun _ _ => .ok [], .ok (gs "x"), .ok (gs "h")⟩
        [] []).1 = ⟨some (gs "x"), untrackedFiles (gs "n.go"), none⟩ :=
  (empty_revisions_precedence ⟨true, .ok (gs "n.go"), fun _ _ => .ok [], .ok (gs "x"),
      .ok (gs "h")⟩ (gs "n.go") (gs "x") (gs "h") rfl rfl rfl rfl).1
    (Or.inl (by decide))

/-- C8 counterexample: the start field 18446744073709551615 is numeric (the
parser accepts it), yet the hunk-header step sets the line counter to -2,
not to start - 1, because of the two's-complement conversion of the parsed
uint64 value to a Go int. -/
theorem hunk_header_wrap_cex :
    goParseUint64 (gs "18446744073709551615") = (18446744073709551615, true) ∧
    lcStep (⟨gs "file.go", 5, 3, some []⟩, []) (gs "@@ -1 +18446744073709551615 @@") =
      some (⟨gs "file.go", -2, 4, some []⟩, []) ∧
    (-2 : Int) ≠ 18446744073709551615 - 1 := by
  decide

/-- C8 amended: a hunk header whose start field is non-numeric is fatal —
the parser aborts without producing a changed-line map (and likewise when
the field extraction itself panics); a numeric start value below 2^63 sets
the absolute line counter to start - 1 (numeric values in [2^63, 2^64) are
accepted but wrap in the int conversion, see the counterexample). -/
theorem hunk_header_parse_behavior :
    (∀ (nf : List GoStr) (pre rest : List GoStr) (l : GoStr)
        (acc : LCState × ChangeMap),
        pre.foldlM lcStep (lcInit nf) = some acc →
        goHasPre l (gs "@@ ") = true →
        (∀ ds, hunkStartField l = some ds → (goParseUint64 ds).2 = false) →
        linesChangedLines nf (some (pre ++ l :: rest)) = none) ∧
    (∀ (s : LCState) (m : ChangeMap) (l : GoStr) (ds : GoStr) (cstart : Nat),
        goHasPre l (gs "@@ ") = true →
        hunkStartField l = some ds →
        goParseUint64 ds = (cstart, true) →
        cstart < 2 ^ 63 →
        lcStep (s, m) l =
          some (⟨s.file, (cstart : Int) - 1, s.hunkPos + 1, s.changes⟩, m)) := by
  constructor
  · intro nf pre rest l acc hpre h2 hnn
    have hstep : lcStep acc l = none := by
      obtain ⟨s, m⟩ := acc
      have h1 : (goHasPre l (gs "+++ ") && decide (l.length > 4)) = false := by
        rw [atat_no_ppp h2, Bool.false_and]
      rw [lcStep_hunkheader s m l h1 h2]
      cases hsf : hunkStartField l with
      | none => rfl
      | some ds =>
        have hb := hnn ds hsf
        cases hpu : goParseUint64 ds with
        | mk c b =>
          rw [hpu] at hb
          subst hb
          simp [hpu]
    unfold linesChangedLines
    simp only []
    rw [List.foldlM_append, hpre]
    simp only [Option.bind_eq_bind', Option.some_bind]
    rw [List.foldlM_cons, hstep]
    rfl
  · intro s m l ds cstart h2 hsf hpu hlt
    have h1 : (goHasPre l (gs "+++ ") && decide (l.length > 4)) = false := by
      rw [atat_no_ppp h2, Bool.false_and]
    rw [lcStep_hunkheader s m l h1 h2, hsf]
    have h63 : cstart < 9223372036854775808 := by simpa using hlt
    simp [hpu, int64OfUInt64, h63]

/-- C8 witness: both parts of the theorem at concrete headers — a
non-numeric start field "x" aborts the parse, and a numeric start 5 sets the
line counter to 4. -/
theorem hunk_header_parse_behavior_witness :
    linesChangedLines [] (some ([] ++ [gs "@@ -1 +x @@"])) = none ∧
    lcStep (⟨[], 0, 0, none⟩, []) (gs "@@ -1,1 +5,2 @@") =
      some (⟨[], (5 : Int) - 1, 1, none⟩, []) :=
  ⟨hunk_header_parse_behavior.1 [] [] [] (gs "@@ -1 +x @@") (lcInit [])
      (by decide) (by decide) (by decide),
   hunk_header_parse_behavior.2 ⟨[], 0, 0, none⟩ [] (gs "@@ -1,1 +5,2 @@")
      (gs "5") 5 (by decide) (by decide) (by decide) (by decide)⟩

/-- C9: the parser is not total on file-header lines: "+++ x" has length 5,
so the length guard (length > 4) admits it, but slicing the line from index
6 is out of range and the parse aborts abnormally (no map) instead of
returning one. -/
theorem short_file_header_aborts :
    linesChanged [] (some (gs "+++ x")) = none ∧
    linesChangedLines [] (some [gs "+++ x"]) = none ∧
    (gs "+++ x").length = 5 ∧
    goHasPre (gs "+++ x") (gs "+++ ") = true ∧
    (gs "+++ x").length > 4 := by
  decide

/-- C10: in write-all mode — entered when GitPatch produced no patch (no
repository) or reported an error — every Check run that returns at all
returns an empty issue list while having written exactly the
pattern-matching input lines. -/
theorem write_all_no_issues (git : GitResult)
    (hw : git.patch = none ∨ git.err ≠ none)
    (relFn : GoStr → Option GoStr) (input : List InputLine) (r : CheckResult)
    (hr : check none [] git relFn input = some r) :
    r.issues = [] ∧ r.written = matchedTexts input := by
  obtain ⟨gp, gnf, gerr⟩ := git
  cases gp with
  | none =>
    have h2 : check none [] ⟨none, gnf, gerr⟩ relFn input =
        some ⟨(input.foldl (checkFold true relFn ((lcInit gnf).2)) ([], [])).1,
              (input.foldl (checkFold true relFn ((lcInit gnf).2)) ([], [])).2,
              some CheckErr.noVCS⟩ := rfl
    rw [h2, checkFold_writeAll_eq] at hr
    simp only [Option.some.injEq] at hr
    subst hr
    exact ⟨rfl, rfl⟩
  | some p =>
    rcases hw with h | h
    · exact absurd h (by simp)
    · have hs : gerr.isSome = true := Option.ne_none_iff_isSome.mp h
      unfold check at hr
      simp only [] at hr
      rw [hs] at hr
      cases hlc : linesChanged gnf (some p) with
      | none => rw [hlc] at hr; simp at hr
      | some lc =>
        rw [hlc] at hr
        simp only [Option.some.injEq] at hr
        rw [checkFold_writeAll_eq] at hr
        subst hr
        exact ⟨rfl, rfl⟩

/-- C10 witness: the theorem applied to the no-repository GitPatch result
and a single matching input line; the line is written yet no Issue exists. -/
theorem write_all_no_issues_witness :
    (CheckResult.mk [] [gs "a.go:1: m"] (some CheckErr.noVCS)).issues = [] ∧
    (CheckResult.mk [] [gs "a.go:1: m"] (some CheckErr.noVCS)).written =
      matchedTexts [⟨gs "a.go:1: m", some ⟨gs "a.go", gs "1", [], gs "m"⟩⟩] :=
  write_all_no_issues ⟨none, [], none⟩ (Or.inl rfl) (fun _ => none)
    [⟨gs "a.go:1: m", some ⟨gs "a.go", gs "1", [], gs "m"⟩⟩]
    ⟨[], [gs "a.go:1: m"], some CheckErr.noVCS⟩ (by decide)

end Revgrep
